import Mathlib

/-!
Verification development for the FHIR package manager
(`scripts/fhir_package_manager.py`): a shallow embedding of the
cache/install/index/search pipeline of `FHIRPackageManager`, followed by
theorems settling the specification claims.

Paths are modelled as lists of path segments relative to the manager's
cache root (`self.cache_dir`).  Network interaction is modelled by an
oracle (`NetEnv`) describing, for each URL, whether the HTTP requests of
`requests.get` succeed and what JSON they return.
-/

namespace FhirPkg

/-- A Python value as stored in a parsed JSON object field: either a JSON
string or `None` (covering both an absent key and a JSON `null`, which is
exactly what `resource.get(field)` with default `None` produces). -/
inductive PyVal where
  | null : PyVal
  | str : String → PyVal
deriving DecidableEq, Repr

/-- Python's `str(·)` on such a value: `str(None)` is the string `"None"`. -/
def pyStr : PyVal → String
  | .null => "None"
  | .str s => s

/-- A parsed JSON resource file, restricted to the fields the manager
reads.  `resourceType` is `none` when the key is absent (the code then
substitutes `"unknown"` via `resource.get("resourceType", "unknown")`);
the remaining fields model `resource.get(f)`, with `PyVal.null` for an
absent key or JSON null. -/
structure JObj where
  resourceType : Option String := none
  id : PyVal := .null
  url : PyVal := .null
  name : PyVal := .null
  title : PyVal := .null
  version : PyVal := .null
deriving DecidableEq, Repr

/-! ## Cache store and install orchestrator (`install_package`) -/

/-- `resolve(identity)`: the cache directory for a package identity,
`self.cache_dir / package_id / version`, as segments under the cache
root. -/
def resolve (package_id version : String) : List String :=
  [package_id, version]

/-- The mutable state the installer touches: the set of directories that
currently exist under the cache root. -/
structure CacheState where
  dirs : List (List String)
deriving DecidableEq, Repr

/-- `path.exists()` for a directory under the cache root. -/
def dirExists (s : CacheState) (p : List String) : Bool :=
  s.dirs.contains p

/-- All non-empty ancestor paths of `p`, `p` included. -/
def ancestors (p : List String) : List (List String) :=
  (List.range p.length).map (fun i => p.take (i + 1))

/-- `path.mkdir(parents=True, exist_ok=True)`: creates the directory and
any missing parents. -/
def mkdirParents (s : CacheState) (p : List String) : CacheState :=
  ⟨s.dirs ++ (ancestors p).filter (fun q => !s.dirs.contains q)⟩

/-- The registry metadata response, restricted to the field the code
reads: `metadata.get("dist", {}).get("tarball")` (`none` when the chain
yields no URL). -/
structure PackageMetadata where
  tarball : Option String
deriving DecidableEq, Repr

/-- Oracle for the network: `getJson url` is the parsed body of a
successful `requests.get(url)` for the metadata lookup (`none` for a
`RequestException` / non-2xx, which `_get_package_metadata` turns into
`None`); `downloadOk url` says whether `requests.get(url)` plus
`raise_for_status()` succeeds for the artifact; `extractOk url` says
whether the downloaded archive extracts without error. -/
structure NetEnv where
  getJson : String → Option PackageMetadata
  downloadOk : String → Bool
  extractOk : String → Bool

/-- The exceptions `install_package` can raise. -/
inductive InstallError where
  | packageNotFound (package_id version : String)
  | noDownloadUrl (package_id version : String)
  | downloadFailed (url : String)
  | unsupportedFormat (url : String)
  | extractionFailed (url : String)
deriving DecidableEq, Repr

/-- Outcome of a call to `install_package`: the final cache state, the
number of network requests issued, and either the returned path or the
raised exception. -/
structure InstallResult where
  state : CacheState
  netCalls : Nat
  result : Except InstallError (List String)

/-- Python's `s.endswith(post)`: `post` is a suffix of `s`. -/
def strEndsWith (s post : String) : Bool :=
  post.data.reverse.isPrefixOf s.data.reverse

/-- The URL built by `_get_package_metadata`:
`f"{self.registry_url}/{package_id}"`, with `f"/{version}"` appended
exactly when `version != "latest"`. -/
def metadataUrl (registry_url package_id version : String) : String :=
  let url := registry_url ++ "/" ++ package_id
  if version != "latest" then url ++ "/" ++ version else url

/-- `install_package(package_id, version)`.  Mirrors the source: return
the cached path when the directory already exists; fetch metadata (one
network call, `ValueError` when it yields nothing); read
`dist.tarball` (`ValueError` when absent); `mkdir(parents=True)` the
destination; then `_download_and_extract` (second network call, suffix
dispatch on `.tgz`/`.tar.gz`/`.zip`, `ValueError` on any other
suffix).  Extraction success writes the archive's entries under the
destination; their layout is not needed by any claim, so only the
directory-creation effect is tracked. -/
def install_package (env : NetEnv) (s : CacheState)
    (registry_url package_id version : String) : InstallResult :=
  let package_dir := resolve package_id version
  if dirExists s package_dir then
    { state := s, netCalls := 0, result := .ok package_dir }
  else
    match env.getJson (metadataUrl registry_url package_id version) with
    | none => { state := s, netCalls := 1,
                result := .error (.packageNotFound package_id version) }
    | some metadata =>
      match metadata.tarball with
      | none => { state := s, netCalls := 1,
                  result := .error (.noDownloadUrl package_id version) }
      | some download_url =>
        let s1 := mkdirParents s package_dir
        if !env.downloadOk download_url then
          { state := s1, netCalls := 2, result := .error (.downloadFailed download_url) }
        else if strEndsWith download_url ".tgz" || strEndsWith download_url ".tar.gz" then
          if env.extractOk download_url then
            { state := s1, netCalls := 2, result := .ok package_dir }
          else
            { state := s1, netCalls := 2, result := .error (.extractionFailed download_url) }
        else if strEndsWith download_url ".zip" then
          if env.extractOk download_url then
            { state := s1, netCalls := 2, result := .ok package_dir }
          else
            { state := s1, netCalls := 2, result := .error (.extractionFailed download_url) }
        else
          { state := s1, netCalls := 2, result := .error (.unsupportedFormat download_url) }

/-! ## Resource indexer (`get_resource_files`, `build_resource_index`) -/

/-- The filesystem under the cache root, as the indexer observes it:
the directories that exist, and for each file its path together with the
result of `json.load` on it.  `none` stands for a failure of one of the
two exception classes the indexing loop catches
(`json.JSONDecodeError`, `IOError`).  A failure of any OTHER class —
e.g. `UnicodeDecodeError` on a `.json` file holding invalid UTF-8
bytes — is not representable here: it would abort
`build_resource_index` entirely, and that uncaught path is modelled
separately by `ParseOutcome` and `indexFilesTry` below; the
`Option JObj` model is the code's behaviour exactly on runs where no
uncaught exception occurs (see `indexFilesTry_eq_indexFiles`). -/
structure FS where
  dirs : List (List String)
  files : List (List String × Option JObj)

/-- The outcome of `open(file_path)` + `json.load(f)` for one candidate
file, with the exception CLASS kept: the parsed object; an exception of
one of the two classes named by the `except` clause
(`json.JSONDecodeError`, `IOError`), which the loop catches and skips;
or an exception of any other class (e.g. `UnicodeDecodeError` raised by
`f.read()` inside `json.load` on non-UTF-8 bytes), which that clause
does not catch. -/
inductive ParseOutcome where
  | ok (resource : JObj)
  | caughtError
  | uncaughtError
deriving DecidableEq, Repr

/-- Forgetting the exception class: the `Option JObj` view of an
outcome, as stored in `FS.files` (meaningful only when no uncaught
exception occurs). -/
def outcomeToOption : ParseOutcome → Option JObj
  | .ok resource => some resource
  | .caughtError => none
  | .uncaughtError => none

/-- Whether a path names a `*.json` file: its last segment matches the
glob pattern `"*.json"`. -/
def isJsonFile (p : List String) : Bool :=
  match p.getLast? with
  | some s => strEndsWith s ".json"
  | none => false

/-- `search_dir.rglob("*.json")`: every file strictly below `d` whose
name matches `*.json`.  Result order follows the filesystem's file
order (traversal order is filesystem-dependent in the source). -/
def rglobJson (fs : FS) (d : List String) : List (List String) :=
  (fs.files.filter (fun f => d.isPrefixOf f.1 && f.1 != d && isJsonFile f.1)).map
    (fun f => f.1)

/-- `get_resource_files(package_id, version)` with the default
`resource_type=None` (the only way `build_resource_index` calls it, so
the alternate `*{resource_type}*.json` pattern is not modelled): return
`[]` when the package directory does not exist, else extend the result
with `rglob("*.json")` over each existing directory among
`package_dir/"package"`, `package_dir`, `package_dir/"input"`. -/
def get_resource_files (fs : FS) (package_dir : List String) : List (List String) :=
  if !dirExists ⟨fs.dirs⟩ package_dir then []
  else
    [package_dir ++ ["package"], package_dir, package_dir ++ ["input"]].foldl
      (fun acc d => if dirExists ⟨fs.dirs⟩ d then acc ++ rglobJson fs d else acc) []

/-- `open(file_path)` followed by `json.load`: the parse result recorded
for the path in the filesystem (`none`, i.e. unparseable, for a path with
no recorded file). -/
def readJson (fs : FS) (p : List String) : Option JObj :=
  match fs.files.find? (fun f => f.1 == p) with
  | some f => f.2
  | none => none

/-- `str(file_path)`. -/
def pathStr (p : List String) : String :=
  String.intercalate "/" p

/-- One entry of the resource index, mirroring the two dict shapes
`build_resource_index` appends: `typedEntry` for the
`resource_type in index` branch (keys `id`, `url`, `name`, `title`,
`version`, `file_path`), `exampleEntry` for the catch-all else branch
(keys `resourceType`, `id`, `file_path` only). -/
inductive ResourceRecord where
  | typedEntry (id url name title version : PyVal) (file_path : String)
  | exampleEntry (resourceType : String) (id : PyVal) (file_path : String)
deriving DecidableEq, Repr

/-- The index: a Python dict in insertion order, as an association list
from bucket name to its record list. -/
abbrev Index : Type := List (String × List ResourceRecord)

/-- The initial dict literal of `build_resource_index`. -/
def emptyIndex : Index :=
  [("StructureDefinition", []), ("ValueSet", []), ("CodeSystem", []),
   ("SearchParameter", []), ("OperationDefinition", []),
   ("CapabilityStatement", []), ("examples", [])]

/-- The keys of the initial dict, in insertion order. -/
def knownKeys : List String :=
  ["StructureDefinition", "ValueSet", "CodeSystem", "SearchParameter",
   "OperationDefinition", "CapabilityStatement", "examples"]

/-- Python `resource_type in index`: key membership in the dict. -/
def hasKey (idx : Index) (k : String) : Bool :=
  (idx.map (fun b => b.1)).contains k

/-- `index[k].append(r)`: append `r` to the bucket stored under key `k`
(a no-op when the key is absent; in the source the key is always
present). -/
def appendAt (idx : Index) (k : String) (r : ResourceRecord) : Index :=
  idx.map (fun b => if b.1 == k then (b.1, b.2 ++ [r]) else b)

/-- `index[k]` (reading): the bucket stored under `k`, `[]` when the key
is absent. -/
def getBucket (idx : Index) (k : String) : List ResourceRecord :=
  match idx.find? (fun b => b.1 == k) with
  | some b => b.2
  | none => []

/-- The loop body of `build_resource_index` for one candidate file: skip
it when parsing failed, otherwise read
`resource.get("resourceType", "unknown")` and append the corresponding
record to its type's bucket when `resource_type in index`, else to
`"examples"`. -/
def indexFile (idx : Index) (file_path : String) (content : Option JObj) : Index :=
  match content with
  | none => idx
  | some resource =>
    let resource_type := resource.resourceType.getD "unknown"
    if hasKey idx resource_type then
      appendAt idx resource_type
        (.typedEntry resource.id resource.url resource.name resource.title
          resource.version file_path)
    else
      appendAt idx "examples"
        (.exampleEntry resource_type resource.id file_path)

/-- The whole loop of `build_resource_index` over a list of candidate
files (path rendered as a string, paired with its parse result). -/
def indexFiles (files : List (String × Option JObj)) : Index :=
  files.foldl (fun idx f => indexFile idx f.1 f.2) emptyIndex

/-- The candidate loop of `build_resource_index` with its `try`/`except`
modelled exactly, over outcomes that keep the exception class: a parsed
file is appended to its bucket, a failure of a caught class
(`json.JSONDecodeError`, `IOError`) is skipped and the loop continues,
and a failure of any other class propagates — the loop stops, no later
file is processed, and no index is returned (`none`). -/
def indexFilesTry (files : List (String × ParseOutcome)) (idx : Index) : Option Index :=
  match files with
  | [] => some idx
  | f :: t =>
    match f.2 with
    | .ok resource => indexFilesTry t (indexFile idx f.1 (some resource))
    | .caughtError => indexFilesTry t idx
    | .uncaughtError => none

/-- The candidate files of a package, with their parse results: what the
loop of `build_resource_index` iterates over. -/
def candidateContents (fs : FS) (package_dir : List String) :
    List (String × Option JObj) :=
  (get_resource_files fs package_dir).map (fun p => (pathStr p, readJson fs p))

/-- `build_resource_index(package_id, version)`. -/
def build_resource_index (fs : FS) (package_dir : List String) : Index :=
  indexFiles (candidateContents fs package_dir)

/-! ## Search engine (`search_resources`) -/

/-- Python truthiness of an optional string argument (`None` and `""`
are falsy). -/
def truthy : Option String → Bool
  | none => false
  | some s => s != ""

/-- `str(resource.get("name", ""))` on a record dict: typed entries hold
the key (possibly with value `None`, which `str` renders as `"None"`),
example entries lack it and yield the default `""`. -/
def getName : ResourceRecord → String
  | .typedEntry _ _ name _ _ _ => pyStr name
  | .exampleEntry _ _ _ => ""

/-- `str(resource.get("url", ""))` on a record dict. -/
def getUrl : ResourceRecord → String
  | .typedEntry _ url _ _ _ _ => pyStr url
  | .exampleEntry _ _ _ => ""

/-- `str(resource.get("title", ""))` on a record dict. -/
def getTitle : ResourceRecord → String
  | .typedEntry _ _ _ title _ _ => pyStr title
  | .exampleEntry _ _ _ => ""

/-- Python's substring test `needle in hay` on lists of characters. -/
def listContains (needle : List Char) : List Char → Bool
  | [] => needle.isEmpty
  | c :: t => needle.isPrefixOf (c :: t) || listContains needle t

/-- `needle.lower() in hay.lower()`: case-insensitive substring test,
with `str.lower` modelled as character-wise lowercasing. -/
def lowerIn (needle hay : String) : Bool :=
  listContains (needle.data.map Char.toLower) (hay.data.map Char.toLower)

/-- The `elif` condition of `search_resources`: the query appears
case-insensitively in the record's rendered `name`, `url` or `title`. -/
def matchesQuery (query : String) (r : ResourceRecord) : Bool :=
  lowerIn query (getName r) || lowerIn query (getUrl r) || lowerIn query (getTitle r)

/-- One element of the result list, `{**resource, "resourceType": res_type}`:
the record's fields with `resourceType` set to the bucket name (for an
example entry this overwrites the declared type; for a typed entry the
`url`/`name`/`title`/`version` keys are present, possibly `None`, while
an example entry lacks them). -/
structure SearchResult where
  resourceType : String
  id : PyVal
  url : Option PyVal
  name : Option PyVal
  title : Option PyVal
  version : Option PyVal
  file_path : String
deriving DecidableEq, Repr

/-- `{**resource, "resourceType": res_type}`. -/
def tagRecord (res_type : String) : ResourceRecord → SearchResult
  | .typedEntry id url name title version fp =>
    ⟨res_type, id, some url, some name, some title, some version, fp⟩
  | .exampleEntry _ id fp =>
    ⟨res_type, id, none, none, none, none, fp⟩

/-- The loop of `search_resources` over a built index: skip buckets other
than a truthy `resource_type` filter; within a bucket keep every record
when the query is falsy, else exactly those satisfying the `elif`
condition; tag each kept record with its bucket name. -/
def searchIndex (idx : Index) (query resource_type : Option String) :
    List SearchResult :=
  idx.foldl
    (fun results b =>
      if truthy resource_type && resource_type != some b.1 then results
      else
        results ++ b.2.filterMap (fun r =>
          if !truthy query then some (tagRecord b.1 r)
          else if matchesQuery (query.getD "") r then some (tagRecord b.1 r)
          else none))
    []

/-- `search_resources(package_id, version, query, resource_type)`:
build the index, then run the search loop. -/
def search_resources (fs : FS) (package_dir : List String)
    (query resource_type : Option String) : List SearchResult :=
  searchIndex (build_resource_index fs package_dir) query resource_type

/-! ## Specification-side vocabulary for the indexer claims -/

/-- The bucket a parsed resource is classified into: its declared type
when that is a key of the index, else `"examples"`. -/
def classify (o : JObj) : String :=
  let rt := o.resourceType.getD "unknown"
  if knownKeys.contains rt then rt else "examples"

/-- The record a parsed resource contributes. -/
def recordOf (file_path : String) (o : JObj) : ResourceRecord :=
  if knownKeys.contains (o.resourceType.getD "unknown") then
    .typedEntry o.id o.url o.name o.title o.version file_path
  else
    .exampleEntry (o.resourceType.getD "unknown") o.id file_path

/-- The expected contents of bucket `k`: the records of the candidate
files that parsed and classify to `k`, in candidate order. -/
def bucketSpec (files : List (String × Option JObj)) (k : String) :
    List ResourceRecord :=
  files.filterMap (fun f =>
    f.2.bind (fun o => if classify o == k then some (recordOf f.1 o) else none))

/-- The total number of records across all buckets. -/
def totalCount (idx : Index) : Nat :=
  (idx.map (fun b => b.2.length)).sum

/-- The number of candidate files that parsed successfully. -/
def countParsed (files : List (String × Option JObj)) : Nat :=
  (files.filter (fun f => f.2.isSome)).length


/-- The records a single bucket contributes to a search result: empty
when a truthy `resource_type` filter names a different bucket, else the
bucket's records surviving the query test, tagged with the bucket name.
`searchIndex` is the fold of `++` over these lists. -/
def bucketResults (query resource_type : Option String)
    (b : String × List ResourceRecord) : List SearchResult :=
  if truthy resource_type && resource_type != some b.1 then []
  else
    b.2.filterMap (fun r =>
      if !truthy query then some (tagRecord b.1 r)
      else if matchesQuery (query.getD "") r then some (tagRecord b.1 r)
      else none)

/-- Modelled from the spec's words (for comparison with the code's
behaviour): the record's `name` rendered with "a field that is absent or
has no value is treated as the empty string". -/
def specFieldName : ResourceRecord → String
  | .typedEntry _ _ (.str s) _ _ _ => s
  | _ => ""

/-- Modelled from the spec's words: the record's `url` with absent or
valueless fields rendered as the empty string. -/
def specFieldUrl : ResourceRecord → String
  | .typedEntry _ (.str s) _ _ _ _ => s
  | _ => ""

/-- Modelled from the spec's words: the record's `title` with absent or
valueless fields rendered as the empty string. -/
def specFieldTitle : ResourceRecord → String
  | .typedEntry _ _ _ (.str s) _ _ => s
  | _ => ""

/-- Modelled from the spec's words: keep a record iff the query appears
case-insensitively in `name`, `url` or `title`, where a field that is
absent or has no value is treated as the empty string.  To be compared
with the code-side condition `matchesQuery`. -/
def matchesQuerySpec (q : String) (r : ResourceRecord) : Bool :=
  lowerIn q (specFieldName r) || lowerIn q (specFieldUrl r)
    || lowerIn q (specFieldTitle r)

/-! ## Concrete inputs used by witnesses and counterexamples -/

/-- A network oracle on which every request fails; installs that consult
the network cannot succeed against it. -/
def noNetEnv : NetEnv :=
  { getJson := fun _ => none,
    downloadOk := fun _ => false,
    extractOk := fun _ => false }

/-- The artifact URL of Scenario C: its suffix `.rar` is not a supported
archive format. -/
def rarUrl : String := "https://packages.fhir.org/core/core-1.0.0.rar"

/-- A network oracle whose registry serves metadata pointing at the
`.rar` artifact and whose downloads succeed. -/
def rarEnv : NetEnv :=
  { getJson := fun _ => some ⟨some rarUrl⟩,
    downloadOk := fun _ => true,
    extractOk := fun _ => true }

/-- A parsed structure-definition resource named `"Foo"`. -/
def demoObj : JObj := { resourceType := some "StructureDefinition", name := .str "Foo" }

/-- An installed package holding one parseable and one unparseable
file. -/
def demoFS : FS :=
  { dirs := [["core", "1.0.0"]],
    files := [(["core", "1.0.0", "a.json"], some demoObj),
              (["core", "1.0.0", "bad.json"], none)] }

/-- A candidate-file list with three parseable files of three different
declared types and one unparseable file. -/
def demoFiles : List (String × Option JObj) :=
  [("a.json", some demoObj),
   ("b.json", some { resourceType := some "ValueSet", url := .str "http://x/vs1" }),
   ("c.json", some { resourceType := some "Patient" }),
   ("bad.json", none)]

/-- One parseable file whose `name`, `url` and `title` are all `None`. -/
def nullNameFiles : List (String × Option JObj) :=
  [("s.json", some { resourceType := some "StructureDefinition" })]

/-- One parseable file whose declared `resourceType` is literally
`"examples"` — a key of the index dict, so the known-type branch fires. -/
def examplesTypedFiles : List (String × Option JObj) :=
  [("e.json", some { resourceType := some "examples", name := .str "foo" })]

/-- One parseable file with the unrecognized declared type `"Patient"`. -/
def patientFiles : List (String × Option JObj) :=
  [("c.json", some { resourceType := some "Patient" })]

/-- Candidate outcomes with one file whose `json.load` raises an
uncaught exception class (e.g. a `.json` file of invalid UTF-8 bytes,
raising `UnicodeDecodeError`) between two parseable files. -/
def mixedOutcomes : List (String × ParseOutcome) :=
  [("a.json", .ok demoObj),
   ("bad-utf8.json", .uncaughtError),
   ("c.json", .ok { resourceType := some "Patient" })]

/-- The same candidates with the middle failure of a caught class
instead (syntactically invalid JSON raising `json.JSONDecodeError`). -/
def caughtOutcomes : List (String × ParseOutcome) :=
  [("a.json", .ok demoObj),
   ("bad-json.json", .caughtError),
   ("c.json", .ok { resourceType := some "Patient" })]

/-! ## Helper lemmas about the index dictionary -/

/-- Unfolding `appendAt` over a cons cell. -/
theorem appendAt_cons (b : String × List ResourceRecord) (t : Index) (k : String)
    (r : ResourceRecord) :
    appendAt (b :: t) k r
      = (if b.1 == k then (b.1, b.2 ++ [r]) else b) :: appendAt t k r := rfl

/-- Reading a bucket of a cons cell. -/
theorem getBucket_cons (b : String × List ResourceRecord) (t : Index) (k : String) :
    getBucket (b :: t) k = if b.1 = k then b.2 else getBucket t k := by
  by_cases hb : b.1 = k
  · rw [if_pos hb]; unfold getBucket; rw [List.find?_cons_of_pos _ (by simp [hb])]
  · rw [if_neg hb]; unfold getBucket; rw [List.find?_cons_of_neg _ (by simp [hb])]

/-- Key membership over a cons cell. -/
theorem hasKey_cons (b : String × List ResourceRecord) (t : Index) (k : String) :
    hasKey (b :: t) k = (k == b.1 || hasKey t k) := by
  simp [hasKey, List.contains_cons]

/-- `appendAt` never changes the key sequence of the dict. -/
theorem keys_appendAt (idx : Index) (k : String) (r : ResourceRecord) :
    (appendAt idx k r).map (fun b => b.1) = idx.map (fun b => b.1) := by
  induction idx with
  | nil => rfl
  | cons b t ih =>
    rw [appendAt_cons, List.map_cons, List.map_cons, ih]
    by_cases hb : b.1 = k <;> simp [hb]

/-- Appending under an absent key is a no-op. -/
theorem appendAt_of_not_hasKey (idx : Index) (k : String) (r : ResourceRecord)
    (h : hasKey idx k = false) : appendAt idx k r = idx := by
  induction idx with
  | nil => rfl
  | cons b t ih =>
    rw [hasKey_cons, Bool.or_eq_false_iff] at h
    have hb : ¬ b.1 = k := by
      intro he; rw [he] at h; simp at h
    rw [appendAt_cons, if_neg (by simpa using hb), ih h.2]

/-- Appending under a present key appends to that bucket. -/
theorem getBucket_appendAt_self (idx : Index) (k : String) (r : ResourceRecord)
    (h : hasKey idx k = true) :
    getBucket (appendAt idx k r) k = getBucket idx k ++ [r] := by
  induction idx with
  | nil => simp [hasKey] at h
  | cons b t ih =>
    rw [appendAt_cons]
    by_cases hb : b.1 = k
    · rw [if_pos (by simpa using hb), getBucket_cons, getBucket_cons, if_pos hb]
      simp [hb]
    · rw [hasKey_cons, Bool.or_eq_true_iff] at h
      have h' : hasKey t k = true := by
        rcases h with h | h
        · have hkb : k = b.1 := by simpa using h
          exact absurd hkb.symm hb
        · exact h
      rw [if_neg (by simpa using hb), getBucket_cons, getBucket_cons, if_neg hb, if_neg hb]
      exact ih h'

/-- Appending under one key leaves all other buckets unchanged. -/
theorem getBucket_appendAt_ne (idx : Index) (k k' : String) (r : ResourceRecord)
    (h : k' ≠ k) : getBucket (appendAt idx k r) k' = getBucket idx k' := by
  induction idx with
  | nil => rfl
  | cons b t ih =>
    rw [appendAt_cons]
    by_cases hb : b.1 = k
    · have hne : ¬ (if b.1 == k then (b.1, b.2 ++ [r]) else b).1 = k' := by
        rw [if_pos (by simpa using hb)]; simpa [hb] using fun he => h he.symm
      rw [getBucket_cons, if_neg hne, getBucket_cons,
        if_neg (by rw [hb]; exact fun he => h he.symm)]
      exact ih
    · rw [if_neg (by simpa using hb), getBucket_cons, getBucket_cons]
      by_cases hb' : b.1 = k'
      · rw [if_pos hb', if_pos hb']
      · rw [if_neg hb', if_neg hb']
        exact ih

/-- A key is absent exactly when it is not among the dict's keys. -/
theorem hasKey_false_iff (idx : Index) (k : String) :
    hasKey idx k = false ↔ k ∉ idx.map (fun b => b.1) := by
  induction idx with
  | nil => simp [hasKey]
  | cons b t ih => rw [hasKey_cons]; simp [ih, not_or]

/-- Total record count over a cons cell. -/
theorem totalCount_cons (b : String × List ResourceRecord) (t : Index) :
    totalCount (b :: t) = b.2.length + totalCount t := by
  simp [totalCount]

/-- With distinct keys, appending under a present key grows the total
record count by one. -/
theorem totalCount_appendAt (idx : Index) (k : String) (r : ResourceRecord)
    (hnd : (idx.map (fun b => b.1)).Nodup) (h : hasKey idx k = true) :
    totalCount (appendAt idx k r) = totalCount idx + 1 := by
  induction idx with
  | nil => simp [hasKey] at h
  | cons b t ih =>
    rw [List.map_cons, List.nodup_cons] at hnd
    rw [appendAt_cons]
    by_cases hb : b.1 = k
    · have ht : hasKey t k = false := by
        rw [hasKey_false_iff]; rw [← hb]; exact hnd.1
      rw [if_pos (by simpa using hb), appendAt_of_not_hasKey t k r ht,
        totalCount_cons, totalCount_cons]
      simp [List.length_append]
      omega
    · rw [hasKey_cons, Bool.or_eq_true_iff] at h
      have h' : hasKey t k = true := by
        rcases h with h | h
        · have hkb : k = b.1 := by simpa using h
          exact absurd hkb.symm hb
        · exact h
      rw [if_neg (by simpa using hb), totalCount_cons, totalCount_cons, ih hnd.2 h']
      omega

/-! ## Helper lemmas about the indexing fold -/

/-- Unfolding the loop body on a parsed file. -/
theorem indexFile_some (idx : Index) (fp : String) (o : JObj) :
    indexFile idx fp (some o)
      = if hasKey idx (o.resourceType.getD "unknown") then
          appendAt idx (o.resourceType.getD "unknown")
            (.typedEntry o.id o.url o.name o.title o.version fp)
        else appendAt idx "examples"
          (.exampleEntry (o.resourceType.getD "unknown") o.id fp) := rfl

/-- An unparseable candidate contributes nothing to any bucket's
expected contents. -/
theorem bucketSpec_cons_skip (fp : String) (t : List (String × Option JObj))
    (k : String) :
    bucketSpec ((fp, none) :: t) k = bucketSpec t k := by
  simp [bucketSpec, List.filterMap_cons]

/-- A parsed candidate contributes its record exactly to the bucket it
classifies into. -/
theorem bucketSpec_cons_parsed (fp : String) (o : JObj)
    (t : List (String × Option JObj)) (k : String) :
    bucketSpec ((fp, some o) :: t) k
      = (if classify o == k then [recordOf fp o] else []) ++ bucketSpec t k := by
  by_cases hc : classify o = k <;> simp [bucketSpec, List.filterMap_cons, hc]

/-- Every bucket of the initial dict is empty. -/
theorem getBucket_emptyIndex (k : String) : getBucket emptyIndex k = [] := by
  simp only [emptyIndex, getBucket_cons]
  split_ifs <;> rfl

/-- Parsed-candidate count over a cons cell. -/
theorem countParsed_cons (f : String × Option JObj) (t : List (String × Option JObj)) :
    countParsed (f :: t) = (if f.2.isSome then 1 else 0) + countParsed t := by
  by_cases h : f.2.isSome = true
  · simp [countParsed, h, List.filter_cons]
    omega
  · simp [countParsed, h, List.filter_cons]

/-- The indexing fold never changes the dict's key sequence. -/
theorem keys_foldl_indexFile (files : List (String × Option JObj)) :
    ∀ idx : Index,
      (files.foldl (fun i f => indexFile i f.1 f.2) idx).map (fun b => b.1)
        = idx.map (fun b => b.1) := by
  induction files with
  | nil => intro idx; rfl
  | cons f t ih =>
    obtain ⟨fp, c⟩ := f
    intro idx
    simp only [List.foldl_cons]
    rcases c with _ | o
    · rw [show indexFile idx fp none = idx from rfl]
      exact ih idx
    · rw [indexFile_some]
      by_cases hc : hasKey idx (o.resourceType.getD "unknown") = true
      · rw [if_pos hc, ih, keys_appendAt]
      · rw [if_neg hc, ih, keys_appendAt]

/-- Main invariant of the indexing fold: starting from a dict with the
seven known keys, each bucket ends as its starting contents followed by
the records of the candidates that classify into it, in candidate
order. -/
theorem foldl_indexFile_getBucket (files : List (String × Option JObj)) :
    ∀ (idx : Index), idx.map (fun b => b.1) = knownKeys →
      ∀ k, getBucket (files.foldl (fun i f => indexFile i f.1 f.2) idx) k
            = getBucket idx k ++ bucketSpec files k := by
  induction files with
  | nil => intro idx hk k; simp [bucketSpec]
  | cons f t ih =>
    obtain ⟨fp, c⟩ := f
    intro idx hk k
    simp only [List.foldl_cons]
    rcases c with _ | o
    · rw [show indexFile idx fp none = idx from rfl, bucketSpec_cons_skip]
      exact ih idx hk k
    · rw [indexFile_some, bucketSpec_cons_parsed]
      have hhk : hasKey idx (o.resourceType.getD "unknown")
          = knownKeys.contains (o.resourceType.getD "unknown") := by
        unfold hasKey; rw [hk]
      have hkeep : ∀ (k₀ : String) (r : ResourceRecord),
          (appendAt idx k₀ r).map (fun b => b.1) = knownKeys := by
        intro k₀ r; rw [keys_appendAt, hk]
      by_cases hc : knownKeys.contains (o.resourceType.getD "unknown") = true
      · rw [if_pos (by rw [hhk]; exact hc)]
        rw [ih _ (hkeep _ _) k]
        have hcl : classify o = o.resourceType.getD "unknown" := by
          simp only [classify]; rw [if_pos hc]
        have hro : recordOf fp o
            = .typedEntry o.id o.url o.name o.title o.version fp := by
          simp only [recordOf]; rw [if_pos hc]
        by_cases hkk : k = o.resourceType.getD "unknown"
        · subst hkk
          rw [getBucket_appendAt_self _ _ _ (by rw [hhk]; exact hc)]
          rw [hro, if_pos (by simp [hcl]), List.append_assoc]
        · rw [getBucket_appendAt_ne _ _ _ _ hkk]
          rw [hcl, if_neg (by simpa using fun he => hkk he.symm)]
          simp
      · rw [if_neg (by rw [hhk]; exact hc)]
        rw [ih _ (hkeep _ _) k]
        have hex : hasKey idx "examples" = true := by
          unfold hasKey; rw [hk]; decide
        have hcl : classify o = "examples" := by
          simp only [classify]; rw [if_neg hc]
        have hro : recordOf fp o
            = .exampleEntry (o.resourceType.getD "unknown") o.id fp := by
          simp only [recordOf]; rw [if_neg hc]
        by_cases hkk : k = "examples"
        · subst hkk
          rw [getBucket_appendAt_self _ _ _ hex]
          rw [hro, if_pos (by simp [hcl]), List.append_assoc]
        · rw [getBucket_appendAt_ne _ _ _ _ hkk]
          rw [hcl, if_neg (by simpa using fun he => hkk he.symm)]
          simp

/-- Every bucket of the built index holds exactly the records of the
candidates classifying into it. -/
theorem getBucket_indexFiles (files : List (String × Option JObj)) (k : String) :
    getBucket (indexFiles files) k = bucketSpec files k := by
  have h := foldl_indexFile_getBucket files emptyIndex rfl k
  unfold indexFiles
  rw [h, getBucket_emptyIndex, List.nil_append]

/-- The built index has exactly the seven initial keys, in order. -/
theorem keys_indexFiles (files : List (String × Option JObj)) :
    (indexFiles files).map (fun b => b.1) = knownKeys := by
  unfold indexFiles
  rw [keys_foldl_indexFile]
  rfl

/-- The indexing fold grows the total record count by one per parsed
candidate. -/
theorem totalCount_foldl_indexFile (files : List (String × Option JObj)) :
    ∀ idx : Index, idx.map (fun b => b.1) = knownKeys →
      totalCount (files.foldl (fun i f => indexFile i f.1 f.2) idx)
        = totalCount idx + countParsed files := by
  induction files with
  | nil => intro idx hk; simp [countParsed]
  | cons f t ih =>
    obtain ⟨fp, c⟩ := f
    intro idx hk
    simp only [List.foldl_cons]
    rcases c with _ | o
    · rw [show indexFile idx fp none = idx from rfl, ih idx hk, countParsed_cons]
      simp
    · rw [countParsed_cons]
      have hnd : (idx.map (fun b => b.1)).Nodup := by rw [hk]; decide
      have hkeep : ∀ (k₀ : String) (r : ResourceRecord),
          (appendAt idx k₀ r).map (fun b => b.1) = knownKeys := by
        intro k₀ r; rw [keys_appendAt, hk]
      rw [indexFile_some]
      by_cases hc : hasKey idx (o.resourceType.getD "unknown") = true
      · rw [if_pos hc, ih _ (hkeep _ _), totalCount_appendAt _ _ _ hnd hc]
        simp
        omega
      · rw [if_neg hc, ih _ (hkeep _ _),
          totalCount_appendAt _ _ _ hnd (by unfold hasKey; rw [hk]; decide)]
        simp
        omega

/-- The total record count of the built index equals the number of
parsed candidates. -/
theorem totalCount_indexFiles (files : List (String × Option JObj)) :
    totalCount (indexFiles files) = countParsed files := by
  unfold indexFiles
  rw [totalCount_foldl_indexFile files emptyIndex rfl]
  simp [totalCount, emptyIndex]

/-- On candidates none of whose failures is of an uncaught class, the
exact try/except loop completes and computes the same fold as the
`Option JObj`-level loop. -/
theorem indexFilesTry_eq_foldl (files : List (String × ParseOutcome)) :
    ∀ idx : Index, (∀ f ∈ files, f.2 ≠ ParseOutcome.uncaughtError) →
      indexFilesTry files idx
        = some ((files.map (fun f => (f.1, outcomeToOption f.2))).foldl
            (fun i f => indexFile i f.1 f.2) idx) := by
  induction files with
  | nil => intro idx h; rfl
  | cons f t ih =>
    obtain ⟨fp, c⟩ := f
    intro idx h
    have ht : ∀ g ∈ t, g.2 ≠ ParseOutcome.uncaughtError :=
      fun g hg => h g (List.mem_cons_of_mem _ hg)
    cases c with
    | ok resource =>
      simp only [indexFilesTry, List.map_cons, List.foldl_cons]
      exact ih _ ht
    | caughtError =>
      simp only [indexFilesTry, List.map_cons, List.foldl_cons]
      exact ih _ ht
    | uncaughtError =>
      have hcontra := h (fp, .uncaughtError) (List.mem_cons_self _ _)
      simp at hcontra

/-- The `Option JObj` model agrees with the exact try/except loop on
every run where no uncaught exception occurs: the index it builds is the
one the code returns there. -/
theorem indexFilesTry_eq_indexFiles (files : List (String × ParseOutcome))
    (h : ∀ f ∈ files, f.2 ≠ ParseOutcome.uncaughtError) :
    indexFilesTry files emptyIndex
      = some (indexFiles (files.map (fun f => (f.1, outcomeToOption f.2)))) :=
  indexFilesTry_eq_foldl files emptyIndex h

/-! ## Helper lemmas about the search fold -/

/-- A `filterMap` that always keeps is a `map`. -/
theorem filterMap_some_eq_map {α β : Type} (g : α → β) (l : List α) :
    l.filterMap (fun a => some (g a)) = l.map g := by
  induction l with
  | nil => rfl
  | cons a t ih => simp [List.filterMap_cons, ih]

/-- A bucket skipped by a truthy `resource_type` filter contributes
nothing. -/
theorem bucketResults_skip (query resource_type : Option String)
    (b : String × List ResourceRecord)
    (h : (truthy resource_type && resource_type != some b.1) = true) :
    bucketResults query resource_type b = [] := by
  unfold bucketResults; rw [if_pos h]

/-- A bucket passing the `resource_type` filter contributes its records
surviving the query test. -/
theorem bucketResults_keep (query resource_type : Option String)
    (b : String × List ResourceRecord)
    (h : ¬ (truthy resource_type && resource_type != some b.1) = true) :
    bucketResults query resource_type b
      = b.2.filterMap (fun r =>
          if !truthy query then some (tagRecord b.1 r)
          else if matchesQuery (query.getD "") r then some (tagRecord b.1 r)
          else none) := by
  unfold bucketResults; rw [if_neg h]

/-- The search loop equals the flattening of the per-bucket result
lists, in bucket order. -/
theorem searchIndex_eq_join (q rt : Option String) (idx : Index) :
    searchIndex idx q rt = (idx.map (bucketResults q rt)).flatten := by
  suffices h : ∀ (l : Index) (acc : List SearchResult),
      l.foldl (fun results b =>
        if truthy rt && rt != some b.1 then results
        else
          results ++ b.2.filterMap (fun r =>
            if !truthy q then some (tagRecord b.1 r)
            else if matchesQuery (q.getD "") r then some (tagRecord b.1 r)
            else none)) acc
      = acc ++ (l.map (bucketResults q rt)).flatten by
    simpa [searchIndex] using h idx []
  intro l
  induction l with
  | nil => intro acc; simp
  | cons b t ih =>
    intro acc
    simp only [List.foldl_cons, List.map_cons, List.flatten_cons]
    by_cases hskip : (truthy rt && rt != some b.1) = true
    · rw [if_pos hskip, ih, bucketResults_skip _ _ _ hskip]
      simp
    · rw [if_neg hskip, ih, bucketResults_keep _ _ _ hskip, List.append_assoc]

/-- With a non-empty query and no type filter, a bucket contributes
exactly its records satisfying the query condition. -/
theorem bucketResults_some_query (q : String) (hq : q ≠ "")
    (b : String × List ResourceRecord) :
    bucketResults (some q) none b
      = b.2.filterMap (fun r =>
          if matchesQuery q r then some (tagRecord b.1 r) else none) := by
  rw [bucketResults_keep _ _ _ (by simp [truthy])]
  have ht : truthy (some q) = true := by simp [truthy, hq]
  simp [ht]

/-- Membership in a query-filtered search: a result appears exactly when
some bucket holds a record satisfying the query condition whose tagged
form is the result. -/
theorem mem_searchIndex_query (idx : Index) (q : String) (hq : q ≠ "")
    (res : SearchResult) :
    res ∈ searchIndex idx (some q) none ↔
      ∃ b ∈ idx, ∃ r ∈ b.2, matchesQuery q r = true ∧ res = tagRecord b.1 r := by
  rw [searchIndex_eq_join]
  constructor
  · intro h
    rw [List.mem_flatten] at h
    obtain ⟨l, hl, hres⟩ := h
    rw [List.mem_map] at hl
    obtain ⟨b, hb, rfl⟩ := hl
    rw [bucketResults_some_query q hq, List.mem_filterMap] at hres
    obtain ⟨r, hr, hmap⟩ := hres
    by_cases hm : matchesQuery q r = true
    · rw [if_pos hm] at hmap
      exact ⟨b, hb, r, hr, hm, (Option.some_inj.mp hmap).symm⟩
    · rw [if_neg hm] at hmap
      simp at hmap
  · rintro ⟨b, hb, r, hr, hm, rfl⟩
    rw [List.mem_flatten]
    refine ⟨bucketResults (some q) none b, List.mem_map_of_mem _ hb, ?_⟩
    rw [bucketResults_some_query q hq, List.mem_filterMap]
    exact ⟨r, hr, by rw [if_pos hm]⟩

/-- An empty bucket contributes nothing under any filters. -/
theorem bucketResults_nil (q rt : Option String) (b : String × List ResourceRecord)
    (h : b.2 = []) : bucketResults q rt b = [] := by
  by_cases hs : (truthy rt && rt != some b.1) = true
  · rw [bucketResults_skip _ _ _ hs]
  · rw [bucketResults_keep _ _ _ hs, h]
    rfl

/-- Searching an index whose buckets are all empty yields nothing. -/
theorem searchIndex_all_nil (idx : Index) (q rt : Option String)
    (h : ∀ b ∈ idx, b.2 = []) : searchIndex idx q rt = [] := by
  rw [searchIndex_eq_join]
  rw [List.flatten_eq_nil_iff]
  intro l hl
  rw [List.mem_map] at hl
  obtain ⟨b, hb, rfl⟩ := hl
  exact bucketResults_nil _ _ _ (h b hb)

/-- A record of the catch-all shape has no `name`, `url` or `title` key,
so the rendered fields are all empty and no non-empty query matches. -/
theorem matchesQuery_exampleEntry (q : String) (hq : q ≠ "")
    (rt : String) (i : PyVal) (fp : String) :
    matchesQuery q (.exampleEntry rt i fp) = false := by
  have hd : (q.data.map Char.toLower).isEmpty = false := by
    have h0 : q.data ≠ [] := by
      intro h0
      exact hq (by cases q; simp_all)
    cases hql : q.data with
    | nil => exact absurd hql h0
    | cons c t => simp [hql]
  unfold matchesQuery getName getUrl getTitle
  show (lowerIn q "" || lowerIn q "" || lowerIn q "") = false
  have h1 : lowerIn q "" = false := by
    unfold lowerIn
    show listContains (q.data.map Char.toLower) ([].map Char.toLower) = false
    simpa [listContains] using hd
  rw [h1]
  rfl

/-! ## Claim theorems -/

/-- C7: the metadata lookup URL is `registryUrl/id` when the version is
the sentinel `"latest"`, and `registryUrl/id/version` for every other
version — the version segment is appended exactly when the version
differs from `"latest"`. -/
theorem metadata_url_version_segment (registry_url package_id version : String) :
    (version = "latest" →
      metadataUrl registry_url package_id version = registry_url ++ "/" ++ package_id) ∧
    (version ≠ "latest" →
      metadataUrl registry_url package_id version
        = registry_url ++ "/" ++ package_id ++ "/" ++ version) := by
  constructor
  · intro h; subst h; simp [metadataUrl]
  · intro h; simp [metadataUrl, h]

/-- Witness for C7 at the default registry, a concrete package id, and
both a `"latest"` and a pinned version. -/
theorem metadata_url_version_segment_witness :
    metadataUrl "https://packages.fhir.org" "hl7.fhir.r4.core" "latest"
        = "https://packages.fhir.org" ++ "/" ++ "hl7.fhir.r4.core" ∧
    metadataUrl "https://packages.fhir.org" "hl7.fhir.r4.core" "4.0.1"
        = "https://packages.fhir.org" ++ "/" ++ "hl7.fhir.r4.core" ++ "/" ++ "4.0.1" :=
  ⟨(metadata_url_version_segment _ _ _).1 rfl,
   (metadata_url_version_segment _ _ _).2 (by decide)⟩

/-- C3: when the cache directory for an identity already exists,
`install_package` returns that resolved path with zero network calls and
an unchanged cache state; and every successful install of the identity
(the first one included) returns the same resolved path. -/
theorem install_idempotent (env : NetEnv) (s : CacheState)
    (registry_url package_id version : String)
    (h : dirExists s (resolve package_id version) = true) :
    install_package env s registry_url package_id version
      = { state := s, netCalls := 0, result := .ok (resolve package_id version) } ∧
    ∀ (env2 : NetEnv) (s2 : CacheState) (p : List String),
      (install_package env2 s2 registry_url package_id version).result = .ok p →
      p = resolve package_id version := by
  constructor
  · simp [install_package, h]
  · intro env2 s2 p hp
    simp only [install_package] at hp
    repeat' split at hp
    all_goals simp_all

/-- Witness for C3: a concrete already-cached identity is returned as-is,
with zero network calls, even against a dead network. -/
theorem install_idempotent_witness :
    install_package noNetEnv ⟨[["core"], ["core", "1.0.0"]]⟩
        "https://packages.fhir.org" "core" "1.0.0"
      = { state := ⟨[["core"], ["core", "1.0.0"]]⟩, netCalls := 0,
          result := .ok (resolve "core" "1.0.0") } :=
  (install_idempotent noNetEnv ⟨[["core"], ["core", "1.0.0"]]⟩
    "https://packages.fhir.org" "core" "1.0.0" (by decide)).1

/-- C1 (evaluation at the failing input): installing `{"core","1.0.0"}`
from an empty cache, with an artifact URL ending in `.rar`, raises the
unsupported-format error — yet afterwards a directory DOES exist at
`resolve(identity)` and the cache state differs from the initial one,
because `install_package` runs `mkdir(parents=True)` before
`_download_and_extract`.  This contradicts the claim that a failed
install leaves `exists(identity)` false and the cache unchanged. -/
theorem install_rar_leaves_directory :
    (install_package rarEnv ⟨[]⟩ "https://packages.fhir.org" "core" "1.0.0").result
        = .error (.unsupportedFormat rarUrl) ∧
    dirExists (install_package rarEnv ⟨[]⟩ "https://packages.fhir.org" "core" "1.0.0").state
        (resolve "core" "1.0.0") = true ∧
    (install_package rarEnv ⟨[]⟩ "https://packages.fhir.org" "core" "1.0.0").state.dirs
        ≠ (⟨[]⟩ : CacheState).dirs := by
  refine ⟨rfl, rfl, ?_⟩
  decide

/-- C2: in the index built over a package's candidate files, the total
record count across all buckets equals the number of candidates that
parsed successfully, and every bucket holds exactly the records of the
parsed candidates classifying into it — so each parsed candidate
contributes exactly one record, in exactly one bucket: its declared
type's when that is an index key, `"examples"` otherwise. -/
theorem index_partition_and_count (fs : FS) (package_dir : List String) :
    totalCount (build_resource_index fs package_dir)
        = countParsed (candidateContents fs package_dir) ∧
    ∀ k, getBucket (build_resource_index fs package_dir) k
        = bucketSpec (candidateContents fs package_dir) k := by
  unfold build_resource_index
  exact ⟨totalCount_indexFiles _, fun k => getBucket_indexFiles _ k⟩

/-- C6 (evaluation at the failing input): the indexing loop's `except`
clause names only `json.JSONDecodeError` and `IOError`, so a candidate
whose `json.load` raises any other class — e.g. `UnicodeDecodeError` on
a `.json` file of invalid UTF-8 bytes — propagates: the loop stops, the
remaining files are not indexed, and no index is returned.  A single bad
file CAN therefore abort the indexing of the remaining files,
contradicting the claim (and the spec's intent that a parse failure is
purely local).  A failure of a caught class at the same position is
skipped exactly as the claim describes, the two valid files ending up
indexed. -/
theorem bad_file_aborts_indexing :
    indexFilesTry mixedOutcomes emptyIndex = none ∧
    indexFilesTry caughtOutcomes emptyIndex
      = some (indexFiles [("a.json", some demoObj),
                          ("c.json", some { resourceType := some "Patient" })]) := by
  exact ⟨rfl, rfl⟩

/-- C8: the built index always has exactly the seven keys of the initial
dict literal, in order, whatever types the input files declare; and a
bucket no parsed candidate classifies into is the empty list. -/
theorem index_keys_fixed (fs : FS) (package_dir : List String) :
    (build_resource_index fs package_dir).map (fun b => b.1) = knownKeys ∧
    ∀ k, (∀ f ∈ candidateContents fs package_dir, ∀ o : JObj,
            f.2 = some o → classify o ≠ k) →
      getBucket (build_resource_index fs package_dir) k = [] := by
  constructor
  · rw [build_resource_index]; exact keys_indexFiles _
  · intro k hk
    rw [build_resource_index, getBucket_indexFiles, bucketSpec,
      List.filterMap_eq_nil_iff]
    intro f hf
    rcases hfc : f.2 with _ | o
    · rw [Option.none_bind]
    · rw [Option.some_bind, if_neg (by simpa using hk f hf o hfc)]

/-- Witness for C8: the demo package declares no `ValueSet`, so that
bucket is empty while the key structure is the full known set. -/
theorem index_keys_fixed_witness :
    (build_resource_index demoFS ["core", "1.0.0"]).map (fun b => b.1) = knownKeys ∧
    getBucket (build_resource_index demoFS ["core", "1.0.0"]) "ValueSet" = [] :=
  ⟨(index_keys_fixed demoFS ["core", "1.0.0"]).1,
   (index_keys_fixed demoFS ["core", "1.0.0"]).2 "ValueSet"
     (by
       intro f hf o ho
       rw [show candidateContents demoFS ["core", "1.0.0"]
           = [("core/1.0.0/a.json", some demoObj), ("core/1.0.0/bad.json", none)]
           from rfl] at hf
       simp at hf
       rcases hf with rfl | rfl
       · simp at ho
         subst ho
         decide
       · simp at ho)⟩

/-- C9: for a package whose resolved directory does not exist, the
candidate enumeration is empty, every bucket of the built index is
empty, and searching the package yields the empty list — all without
error. -/
theorem missing_package_empty (fs : FS) (package_dir : List String)
    (q rt : Option String)
    (h : dirExists ⟨fs.dirs⟩ package_dir = false) :
    get_resource_files fs package_dir = [] ∧
    (∀ k, getBucket (build_resource_index fs package_dir) k = []) ∧
    search_resources fs package_dir q rt = [] := by
  have h1 : get_resource_files fs package_dir = [] := by
    unfold get_resource_files
    simp [h]
  have h2 : build_resource_index fs package_dir = emptyIndex := by
    unfold build_resource_index candidateContents
    rw [h1]
    rfl
  refine ⟨h1, ?_, ?_⟩
  · intro k; rw [h2, getBucket_emptyIndex]
  · unfold search_resources
    rw [h2]
    exact searchIndex_all_nil _ _ _ (by decide)

/-- Witness for C9 at a concrete never-installed identity. -/
theorem missing_package_empty_witness :
    get_resource_files ⟨[], []⟩ ["absent", "1.0.0"] = [] ∧
    getBucket (build_resource_index ⟨[], []⟩ ["absent", "1.0.0"]) "StructureDefinition"
      = [] ∧
    search_resources ⟨[], []⟩ ["absent", "1.0.0"] (some "foo") none = [] :=
  ⟨(missing_package_empty ⟨[], []⟩ ["absent", "1.0.0"] (some "foo") none (by decide)).1,
   (missing_package_empty ⟨[], []⟩ ["absent", "1.0.0"] (some "foo") none
      (by decide)).2.1 "StructureDefinition",
   (missing_package_empty ⟨[], []⟩ ["absent", "1.0.0"] (some "foo") none (by decide)).2.2⟩

/-- C5: search with neither a query nor a type filter returns exactly
the index flattened in bucket-then-record order, each record tagged with
its bucket's name. -/
theorem search_no_filters_flattened (idx : Index) :
    searchIndex idx none none
      = (idx.map (fun b => b.2.map (tagRecord b.1))).flatten := by
  have hb : ∀ b : String × List ResourceRecord,
      bucketResults none none b = b.2.map (tagRecord b.1) := by
    intro b
    rw [bucketResults_keep _ _ _ (by simp [truthy])]
    simp only [truthy, Bool.not_false, if_true]
    exact filterMap_some_eq_map _ _
  rw [searchIndex_eq_join, funext hb]

/-- C4 counterexample: a record whose `name`, `url` and `title` were
stored as `None` is returned by the non-empty query `"none"`, because
the search renders a `None` value through `str(...)` as the string
`"None"` — while the claim's reading (fields with no value behave as the
empty string, `matchesQuerySpec`) rejects that record. -/
theorem query_none_matches_null_fields :
    searchIndex (indexFiles nullNameFiles) (some "none") none
      = [{ resourceType := "StructureDefinition", id := .null, url := some .null,
           name := some .null, title := some .null, version := some .null,
           file_path := "s.json" }] ∧
    matchesQuerySpec "none"
      (.typedEntry .null .null .null .null .null "s.json") = false := by
  exact ⟨rfl, rfl⟩

/-- C4 (amended): with a non-empty query and no type filter, search
returns exactly the tagged records satisfying the code's query
condition `matchesQuery` — the query appearing case-insensitively in the
rendered `name`, `url` or `title`, where a key that is absent renders as
the empty string but a key present with value `None` renders as the
string `"None"` and can therefore be matched. -/
theorem search_query_filter (idx : Index) (q : String) (hq : q ≠ "")
    (res : SearchResult) :
    res ∈ searchIndex idx (some q) none ↔
      ∃ b ∈ idx, ∃ r ∈ b.2, matchesQuery q r = true ∧ res = tagRecord b.1 r :=
  mem_searchIndex_query idx q hq res

/-- Witness for the amended C4: the query `"foo"` finds the record named
`"Foo"` in a concretely built index. -/
theorem search_query_filter_witness :
    tagRecord "StructureDefinition"
        (.typedEntry .null .null (.str "Foo") .null .null "a.json")
      ∈ searchIndex (indexFiles demoFiles) (some "foo") none :=
  (search_query_filter (indexFiles demoFiles) "foo" (by decide) _).mpr
    ⟨("StructureDefinition",
        [.typedEntry .null .null (.str "Foo") .null .null "a.json"]),
      by decide,
      .typedEntry .null .null (.str "Foo") .null .null "a.json",
      by decide, by decide, rfl⟩

/-- C10 counterexample: a file declaring `resourceType` literally
`"examples"` takes the known-type branch (the string is a key of the
index dict), so its record in the `"examples"` bucket carries the full
`name`/`url`/`title` field set — and a non-empty query returns it from
that bucket. -/
theorem examples_bucket_full_record :
    getBucket (indexFiles examplesTypedFiles) "examples"
      = [.typedEntry .null .null (.str "foo") .null .null "e.json"] ∧
    searchIndex (indexFiles examplesTypedFiles) (some "foo") none
      = [{ resourceType := "examples", id := .null, url := some .null,
           name := some (.str "foo"), title := some .null,
           version := some .null, file_path := "e.json" }] := by
  exact ⟨rfl, rfl⟩

/-- C10 (amended): every record of the `"examples"` bucket either has
the minimal catch-all shape (`resourceType`, `id`, `file_path` only) and
then matches no non-empty query, or stems from a file declaring
`resourceType` exactly `"examples"`, in which case it carries the full
field set and can match a query. -/
theorem examples_records_minimal_amended (files : List (String × Option JObj))
    (q : String) (hq : q ≠ "") (r : ResourceRecord)
    (hr : r ∈ getBucket (indexFiles files) "examples") :
    (∃ rt i fp, r = .exampleEntry rt i fp ∧ matchesQuery q r = false) ∨
    (∃ f ∈ files, ∃ o : JObj, f.2 = some o ∧ o.resourceType = some "examples"
        ∧ r = recordOf f.1 o) := by
  rw [getBucket_indexFiles, bucketSpec, List.mem_filterMap] at hr
  obtain ⟨f, hf, hmap⟩ := hr
  rcases hfc : f.2 with _ | o
  · rw [hfc] at hmap; simp at hmap
  · rw [hfc, Option.some_bind] at hmap
    by_cases hcl : classify o = "examples"
    · rw [if_pos (by simpa using hcl)] at hmap
      have hr' : r = recordOf f.1 o := (Option.some_inj.mp hmap).symm
      by_cases hc : knownKeys.contains (o.resourceType.getD "unknown") = true
      · right
        have hrt : o.resourceType.getD "unknown" = "examples" := by
          rw [classify, if_pos hc] at hcl; exact hcl
        have hsome : o.resourceType = some "examples" := by
          rcases ho : o.resourceType with _ | s
          · rw [ho] at hrt; simp at hrt
          · rw [ho] at hrt; simp at hrt; rw [hrt]
        exact ⟨f, hf, o, hfc, hsome, hr'⟩
      · left
        have hro : recordOf f.1 o
            = .exampleEntry (o.resourceType.getD "unknown") o.id f.1 := by
          rw [recordOf, if_neg hc]
        refine ⟨_, _, _, hr'.trans hro, ?_⟩
        rw [hr', hro]
        exact matchesQuery_exampleEntry q hq _ _ _
    · rw [if_neg (by simpa using hcl)] at hmap
      simp at hmap

/-- Witness for the amended C10: the `"Patient"` file's record is
catch-all shaped and unmatched by the query `"x"`. -/
theorem examples_records_minimal_amended_witness :
    (∃ rt i fp,
        (ResourceRecord.exampleEntry "Patient" PyVal.null "c.json")
          = ResourceRecord.exampleEntry rt i fp
        ∧ matchesQuery "x"
            (ResourceRecord.exampleEntry "Patient" PyVal.null "c.json") = false) ∨
    (∃ f ∈ patientFiles, ∃ o : JObj, f.2 = some o ∧ o.resourceType = some "examples"
        ∧ (ResourceRecord.exampleEntry "Patient" PyVal.null "c.json")
            = recordOf f.1 o) :=
  examples_records_minimal_amended patientFiles "x" (by decide) _ (by decide)

end FhirPkg
